import Mathlib

/-!
Verification of the markpdfdown page-conversion pipeline.

The definitions below are shallow embeddings of the Python source:
* `stripModelsL`, `ensureV1L`, `normalizeBaseUrl` embed the base-URL
  normalization in `LLMClient.__init__` (src/core/LLMClient.py, lines 21-31);
* `retryGo`, `completionWithRetry` embed the retry loop in `completion`
  (src/main.py, lines 60-68);
* `buildUserContent`, `buildMessages` embed the message construction in
  `LLMClient.completion` (src/core/LLMClient.py, lines 62-77);
* `classifyInput` embeds the byte-signature classification in `__main__`
  (src/main.py, lines 151-173);
* `pySorted`, `convertLoop`, `runAfterImages` embed the page loop in
  `__main__` (src/main.py, lines 191-196) and the surrounding control flow.

Python strings are modelled as Lean strings, with the operations
(`in`, `split(...)[0]`, `endswith`, `startswith`) defined on the
underlying character lists.
-/

namespace MarkPdfDown

/-- Test whether `u` is a leading segment of `v`, as in the Python
expression `v.startswith(u)`. -/
def isPrefL [DecidableEq α] : List α → List α → Bool
  | [], _ => true
  | _ :: _, [] => false
  | a :: as, b :: bs => if a = b then isPrefL as bs else false

/-- Test whether `pat` occurs as a contiguous segment of `s`, as in the
Python expression `pat in s`. -/
def containsL [DecidableEq α] (pat : List α) : List α → Bool
  | [] => isPrefL pat []
  | b :: bs => isPrefL pat (b :: bs) || containsL pat bs

/-- The part of `s` before the first occurrence of `pat`, as in the Python
expression `s.split(pat)[0]` (for nonempty `pat` that occurs in `s`);
when `pat` does not occur, the whole of `s`. -/
def beforeFirst [DecidableEq α] (pat : List α) : List α → List α
  | [] => []
  | b :: bs => if isPrefL pat (b :: bs) then [] else b :: beforeFirst pat bs

/-- Test whether `suf` is a trailing segment of `s`, as in the Python
expression `s.endswith(suf)`. -/
def endsL [DecidableEq α] (suf s : List α) : Bool :=
  isPrefL suf.reverse s.reverse

/-- The pattern removed by `LLMClient.__init__`: the characters of
the string slash-models. -/
def modelsPat : List Char := "/models".toList

/-- The characters of the string slash-v-one. -/
def v1Pat : List Char := "/v1".toList

/-- The characters of the one-character string slash. -/
def slashPat : List Char := "/".toList

/-- Embeds lines 22-23 of LLMClient.py: if the base URL contains
the pattern, keep only the part before its first occurrence. -/
def stripModelsL (s : List Char) : List Char :=
  if containsL modelsPat s then beforeFirst modelsPat s else s

/-- Embeds lines 26-31 of LLMClient.py: keep the URL if it already ends
in slash-v-one, else append v-one after an existing trailing slash, else
append slash-v-one. -/
def ensureV1L (s : List Char) : List Char :=
  if endsL v1Pat s then s
  else if endsL slashPat s then s ++ ("v1".toList)
  else s ++ v1Pat

/-- The base-URL normalization performed by `LLMClient.__init__`. -/
def normalizeBaseUrl (s : String) : String :=
  (ensureV1L (stripModelsL s.toList)).asString

/-- Normalization as the spec words it for claim C3: strip a trailing
slash-models suffix only (rather than splitting at the first occurrence),
then apply the same v-one rule. -/
def stripTrailingModels (s : List Char) : List Char :=
  if endsL modelsPat s then s.take (s.length - modelsPat.length) else s

/-- The spec-worded variant of the normalization, for comparison with
`normalizeBaseUrl`. -/
def specTrailingNormalize (s : String) : String :=
  (ensureV1L (stripTrailingModels s.toList)).asString

section ListLemmas

variable {α : Type*} [DecidableEq α]

theorem isPrefL_iff (u : List α) : ∀ v, isPrefL u v = true ↔ ∃ w, v = u ++ w := by
  induction u with
  | nil => intro v; simp [isPrefL]
  | cons a as ih =>
    intro v
    cases v with
    | nil => simp [isPrefL]
    | cons b bs =>
      by_cases hab : a = b
      · subst hab
        simp [isPrefL, ih bs]
      · simp [isPrefL, hab, Ne.symm hab]

theorem isPrefL_append_self (u w : List α) : isPrefL u (u ++ w) = true :=
  (isPrefL_iff u (u ++ w)).mpr ⟨w, rfl⟩

theorem isPrefL_refl (u : List α) : isPrefL u u = true :=
  (isPrefL_iff u u).mpr ⟨[], by simp⟩

theorem isPrefL_of_append (u v w : List α) (h : isPrefL u v = true) :
    isPrefL u (v ++ w) = true := by
  obtain ⟨r, rfl⟩ := (isPrefL_iff u v).mp h
  exact (isPrefL_iff u _).mpr ⟨r ++ w, by simp⟩

theorem isPrefL_append_left (u v w : List α) (hlen : u.length ≤ v.length)
    (h : isPrefL u (v ++ w) = true) : isPrefL u v = true := by
  obtain ⟨r, hr⟩ := (isPrefL_iff u (v ++ w)).mp h
  have htake : (v ++ w).take u.length = u := by
    rw [hr, List.take_left' rfl]
  rw [List.take_append_of_le_length hlen] at htake
  refine (isPrefL_iff u v).mpr ⟨v.drop u.length, ?_⟩
  conv_lhs => rw [← List.take_append_drop u.length v, htake]

theorem isPrefL_append_overlap (u v w : List α) (hlen : v.length < u.length)
    (h : isPrefL u (v ++ w) = true) :
    isPrefL v u = true ∧ isPrefL (u.drop v.length) w = true := by
  obtain ⟨r, hr⟩ := (isPrefL_iff u (v ++ w)).mp h
  have hle : v.length ≤ u.length := Nat.le_of_lt hlen
  have htake : v = u.take v.length := by
    have h1 : (v ++ w).take v.length = v := List.take_left' rfl
    rw [hr, List.take_append_of_le_length hle] at h1
    exact h1.symm
  constructor
  · refine (isPrefL_iff v u).mpr ⟨u.drop v.length, ?_⟩
    conv_lhs => rw [← List.take_append_drop v.length u, ← htake]
  · have hdrop : (v ++ w).drop v.length = w := List.drop_left v w
    rw [hr, List.drop_append_of_le_length hle] at hdrop
    exact (isPrefL_iff _ w).mpr ⟨r, hdrop.symm⟩

theorem bool_ne_false {b : Bool} (h : ¬ b = false) : b = true := by
  cases b with
  | false => exact absurd rfl h
  | true => rfl

theorem beforeFirst_isPrefL (pat : List α) :
    ∀ s, isPrefL (beforeFirst pat s) s = true := by
  intro s
  induction s with
  | nil => simp [beforeFirst, isPrefL]
  | cons b bs ih =>
    by_cases h : isPrefL pat (b :: bs) = true
    · simp only [beforeFirst, h, if_true]
      rfl
    · simp only [beforeFirst, h, if_false]
      simpa [isPrefL] using ih

theorem containsL_nil_eq_false (pat : List α) (hp : pat ≠ []) :
    containsL pat ([] : List α) = false := by
  cases pat with
  | nil => exact absurd rfl hp
  | cons a as => rfl

theorem containsL_beforeFirst (pat : List α) (hp : pat ≠ []) :
    ∀ s, containsL pat (beforeFirst pat s) = false := by
  intro s
  induction s with
  | nil => exact containsL_nil_eq_false pat hp
  | cons b bs ih =>
    by_cases h : isPrefL pat (b :: bs) = true
    · simp only [beforeFirst, h, if_true]
      exact containsL_nil_eq_false pat hp
    · simp only [beforeFirst, h, if_false, containsL, Bool.or_eq_false_iff]
      refine ⟨?_, ih⟩
      by_contra hcon
      have hcon' : isPrefL pat (b :: beforeFirst pat bs) = true := bool_ne_false hcon
      obtain ⟨w, hw⟩ := (isPrefL_iff pat _).mp hcon'
      obtain ⟨w2, hw2⟩ := (isPrefL_iff (beforeFirst pat bs) bs).mp (beforeFirst_isPrefL pat bs)
      apply h
      refine (isPrefL_iff pat (b :: bs)).mpr ⟨w ++ w2, ?_⟩
      rw [hw2, ← List.append_assoc, ← hw]
      simp

theorem beforeFirst_eq_self (pat : List α) :
    ∀ s, containsL pat s = false → beforeFirst pat s = s := by
  intro s
  induction s with
  | nil => intro _; rfl
  | cons b bs ih =>
    intro h
    simp only [containsL, Bool.or_eq_false_iff] at h
    simp [beforeFirst, h.1, ih h.2]

theorem containsL_eq_false_append (pat s t : List α)
    (hs : containsL pat s = false) (ht : containsL pat t = false)
    (hov : ∀ k, k < pat.length → 0 < k → isPrefL (pat.drop k) t = false) :
    containsL pat (s ++ t) = false := by
  induction s with
  | nil => simpa using ht
  | cons b bs ih =>
    simp only [containsL, Bool.or_eq_false_iff] at hs
    have ih' := ih hs.2
    simp only [List.cons_append, containsL, Bool.or_eq_false_iff]
    refine ⟨?_, ih'⟩
    by_contra hcon
    have hcon' : isPrefL pat ((b :: bs) ++ t) = true := bool_ne_false hcon
    rcases le_or_lt pat.length (b :: bs).length with hle | hlt
    · have := isPrefL_append_left pat (b :: bs) t hle hcon'
      rw [hs.1] at this; exact Bool.false_ne_true this
    · obtain ⟨_, h2⟩ := isPrefL_append_overlap pat (b :: bs) t hlt hcon'
      have := hov (b :: bs).length hlt (by simp)
      rw [this] at h2; exact Bool.false_ne_true h2

theorem endsL_append_self (suf b : List α) : endsL suf (b ++ suf) = true := by
  unfold endsL
  rw [List.reverse_append]
  exact isPrefL_append_self _ _

end ListLemmas

theorem endsL_slash_v1 (b : List Char) (h : endsL slashPat b = true) :
    endsL v1Pat (b ++ ("v1".toList)) = true := by
  unfold endsL slashPat at h
  obtain ⟨w, hw⟩ := (isPrefL_iff _ _).mp h
  unfold endsL v1Pat
  rw [List.reverse_append, hw]
  simp [isPrefL]

theorem stripModelsL_no_models (s : List Char) :
    containsL modelsPat (stripModelsL s) = false := by
  by_cases h : containsL modelsPat s = true
  · simp only [stripModelsL, h, if_true]
    exact containsL_beforeFirst modelsPat (by decide) s
  · have h' : containsL modelsPat s = false := Bool.eq_false_iff.mpr h
    simp [stripModelsL, h']

theorem ensureV1_invariant (b : List Char) (hb : containsL modelsPat b = false) :
    containsL modelsPat (ensureV1L b) = false ∧ endsL v1Pat (ensureV1L b) = true := by
  by_cases h1 : endsL v1Pat b = true
  · exact ⟨by simp [ensureV1L, h1, hb], by simp [ensureV1L, h1]⟩
  · have h1' : endsL v1Pat b = false := Bool.eq_false_iff.mpr h1
    by_cases h2 : endsL slashPat b = true
    · have he : ensureV1L b = b ++ ("v1".toList) := by
        simp [ensureV1L, h1', h2]
      rw [he]
      refine ⟨?_, endsL_slash_v1 b h2⟩
      exact containsL_eq_false_append _ _ _ hb (by decide) (by decide)
    · have h2' : endsL slashPat b = false := Bool.eq_false_iff.mpr h2
      have he : ensureV1L b = b ++ v1Pat := by
        simp [ensureV1L, h1', h2']
      rw [he]
      refine ⟨?_, ?_⟩
      · exact containsL_eq_false_append _ _ _ hb (by decide) (by decide)
      · exact endsL_append_self v1Pat b

theorem normalize_fixed (s : List Char)
    (h1 : containsL modelsPat s = false) (h2 : endsL v1Pat s = true) :
    ensureV1L (stripModelsL s) = s := by
  simp [stripModelsL, h1, ensureV1L, h2]

theorem containsL_append_pat {α : Type*} [DecidableEq α] (pat : List α) (hne : pat ≠ []) :
    ∀ p x, containsL pat (p ++ (pat ++ x)) = true := by
  intro p x
  induction p with
  | nil =>
    have hpre : isPrefL pat (pat ++ x) = true := isPrefL_append_self pat x
    cases pat with
    | nil => exact absurd rfl hne
    | cons a as =>
      simp only [List.nil_append, List.cons_append] at hpre ⊢
      simp [containsL, hpre]
  | cons b p' ih =>
    simp only [List.cons_append, containsL, List.append_eq, ih, Bool.or_true]

theorem beforeFirst_append_pat {α : Type*} [DecidableEq α] (pat : List α) (hne : pat ≠ [])
    (hov : ∀ k, k < pat.length → 0 < k → isPrefL (pat.drop k) pat = false) :
    ∀ p x, beforeFirst pat (p ++ (pat ++ x)) = beforeFirst pat p := by
  intro p x
  induction p with
  | nil =>
    have hpre : isPrefL pat (pat ++ x) = true := isPrefL_append_self pat x
    cases pat with
    | nil => exact absurd rfl hne
    | cons a as =>
      simp only [List.nil_append, List.cons_append] at hpre ⊢
      simp [beforeFirst, hpre]
  | cons b p' ih =>
    by_cases hpre : isPrefL pat (b :: p') = true
    · have hpre2 : isPrefL pat (b :: (p' ++ (pat ++ x))) = true := by
        have := isPrefL_of_append pat (b :: p') (pat ++ x) hpre
        simpa using this
      simp only [List.cons_append, beforeFirst, List.append_eq, hpre2, hpre, if_true]
    · have hpre' : isPrefL pat (b :: p') = false := Bool.eq_false_iff.mpr hpre
      have hpre2 : isPrefL pat (b :: (p' ++ (pat ++ x))) = false := by
        by_contra hc
        have hc' : isPrefL pat (b :: (p' ++ (pat ++ x))) = true := bool_ne_false hc
        have hc2 : isPrefL pat ((b :: p') ++ (pat ++ x)) = true := by simpa using hc'
        rcases le_or_lt pat.length (b :: p').length with hle | hlt
        · have := isPrefL_append_left pat (b :: p') (pat ++ x) hle hc2
          rw [hpre'] at this; exact Bool.false_ne_true this
        · obtain ⟨_, h2⟩ := isPrefL_append_overlap pat (b :: p') (pat ++ x) hlt hc2
          have hlen2 : (pat.drop (b :: p').length).length ≤ pat.length := by
            simp [List.length_drop]
          have h3 := isPrefL_append_left _ pat x hlen2 h2
          have h4 := hov (b :: p').length hlt (by simp)
          rw [h4] at h3; exact Bool.false_ne_true h3
      simp only [List.cons_append, beforeFirst, List.append_eq, hpre2, hpre',
        Bool.false_eq_true, if_false]
      rw [ih]

/-- Claim C8: endpoint normalization is idempotent. For every base URL,
applying the normalization of `LLMClient.__init__` a second time to an
already-normalized URL yields the same URL. -/
theorem claim_c8_endpoint_idempotent (s : String) :
    normalizeBaseUrl (normalizeBaseUrl s) = normalizeBaseUrl s := by
  unfold normalizeBaseUrl
  have hmain := ensureV1_invariant (stripModelsL s.toList) (stripModelsL_no_models s.toList)
  rw [List.toList_asString, normalize_fixed _ hmain.1 hmain.2]

/-- Claim C9: for every base URL containing the substring slash-models
anywhere, normalization discards everything from the first occurrence
onward before applying the v-one rule: a base URL of the form
prefix, then slash-models, then anything, normalizes exactly as the
prefix alone does. -/
theorem claim_c9_models_split_first (p x : String) :
    normalizeBaseUrl (p ++ "/models" ++ x) = normalizeBaseUrl p := by
  have hdata : (p ++ "/models" ++ x).toList = p.toList ++ (modelsPat ++ x.toList) := by
    show (p ++ "/models" ++ x).data = p.data ++ (modelsPat ++ x.data)
    rw [String.data_append, String.data_append, List.append_assoc]
    rfl
  unfold normalizeBaseUrl
  rw [hdata]
  have hcont : containsL modelsPat (p.toList ++ (modelsPat ++ x.toList)) = true :=
    containsL_append_pat modelsPat (by decide) p.toList x.toList
  have hbf : beforeFirst modelsPat (p.toList ++ (modelsPat ++ x.toList))
      = beforeFirst modelsPat p.toList :=
    beforeFirst_append_pat modelsPat (by decide) (by decide) p.toList x.toList
  simp only [stripModelsL, hcont, if_true, hbf]
  by_cases hc : containsL modelsPat p.toList = true
  · rw [if_pos hc]
  · have hc' : containsL modelsPat p.toList = false := Bool.eq_false_iff.mpr hc
    rw [if_neg hc, beforeFirst_eq_self _ _ hc']

/-- Claim C3 counterexample: the code splits at the first occurrence of
slash-models anywhere, while the claim describes stripping only a
trailing slash-models suffix; on a URL where slash-models occurs in the
middle the two rules disagree, so the claim as stated is false. -/
theorem claim_c3_counterexample :
    normalizeBaseUrl "https://host/v1/models/extra" = "https://host/v1" ∧
    specTrailingNormalize "https://host/v1/models/extra"
      = "https://host/v1/models/extra/v1" ∧
    normalizeBaseUrl "https://host/v1/models/extra"
      ≠ specTrailingNormalize "https://host/v1/models/extra" := by
  refine ⟨?_, ?_, ?_⟩ <;> decide

/-- Claim C3 (amended): normalization discards everything from the first
occurrence of slash-models onward (not only a trailing suffix); the
result is left unchanged when it already ends in slash-v-one, gets
v-one appended when it ends in a slash, and gets slash-v-one appended
otherwise; the three concrete examples of the claim hold. -/
theorem claim_c3_amended :
    (∀ s : String, normalizeBaseUrl s = (ensureV1L (beforeFirst modelsPat s.toList)).asString) ∧
    (∀ l : List Char, endsL v1Pat l = true → ensureV1L l = l) ∧
    (∀ l : List Char, endsL v1Pat l = false → endsL slashPat l = true →
      ensureV1L l = l ++ ("v1".toList)) ∧
    (∀ l : List Char, endsL v1Pat l = false → endsL slashPat l = false →
      ensureV1L l = l ++ v1Pat) ∧
    normalizeBaseUrl "https://host/v1/models" = "https://host/v1" ∧
    normalizeBaseUrl "https://host" = "https://host/v1" ∧
    normalizeBaseUrl "https://host/" = "https://host/v1" := by
  refine ⟨?_, ?_, ?_, ?_, by decide, by decide, by decide⟩
  · intro s
    unfold normalizeBaseUrl stripModelsL
    by_cases hc : containsL modelsPat s.toList = true
    · rw [if_pos hc]
    · have hc' : containsL modelsPat s.toList = false := Bool.eq_false_iff.mpr hc
      rw [if_neg hc, beforeFirst_eq_self _ _ hc']
  · intro l h
    simp [ensureV1L, h]
  · intro l h1 h2
    simp [ensureV1L, h1, h2]
  · intro l h1 h2
    simp [ensureV1L, h1, h2]

/-- Claim C3 amended, witnessed at a concrete input: a URL ending in a
slash gets v-one appended. -/
theorem claim_c3_amended_witness :
    endsL v1Pat ("https://h/".toList) = false ∧
    endsL slashPat ("https://h/".toList) = true ∧
    ensureV1L ("https://h/".toList) = "https://h/".toList ++ ("v1".toList) :=
  ⟨by decide, by decide, claim_c3_amended.2.2.1 _ (by decide) (by decide)⟩

/-- Outcome of the retry loop in `completion` (src/main.py): the returned
string, the list of back-off sleep durations performed (one entry of one
half per failed attempt, from the call `time.sleep(0.5)`), and the number
of failures logged via `logger.error`. -/
structure RetryOutcome where
  response : String
  sleeps : List ℚ
  errorsLogged : Nat
deriving DecidableEq

/-- Embeds the loop `for _ in range(retry_times)` of `completion`
(src/main.py lines 60-68): attempt `i` invokes the client; on success the
response is returned at once; on failure one error is logged and one
sleep of one half occurs before the next attempt; when the budget is
exhausted the empty string is returned. The client is modelled as a
function from the attempt index to an exceptional or successful result. -/
def retryGo (client : Nat → Except String String) : Nat → Nat → RetryOutcome
  | _, 0 => ⟨"", [], 0⟩
  | i, k + 1 =>
    match client i with
    | .ok r => ⟨r, [], 0⟩
    | .error _ =>
      let rest := retryGo client (i + 1) k
      ⟨rest.response, (1 / 2 : ℚ) :: rest.sleeps, rest.errorsLogged + 1⟩

/-- The retry orchestrator of `completion`, starting at attempt 0 with the
given budget (`retry_times`, default 3 in the source). -/
def completionWithRetry (client : Nat → Except String String)
    (retryTimes : Nat) : RetryOutcome :=
  retryGo client 0 retryTimes

/-- Claim C1: the retry orchestrator invokes the client up to 3 times; if
attempts 1 and 2 fail and attempt 3 succeeds it returns the successful
response after exactly two back-off waits of one half time-unit; if all
three attempts fail it returns the empty string (the run does not abort)
with exactly three logged failures. -/
theorem claim_c1_retry_policy (client : Nat → Except String String)
    (e0 e1 : String)
    (h0 : client 0 = .error e0) (h1 : client 1 = .error e1) :
    (∀ r, client 2 = .ok r →
      completionWithRetry client 3 = ⟨r, [1 / 2, 1 / 2], 2⟩) ∧
    (∀ e2, client 2 = .error e2 →
      completionWithRetry client 3 = ⟨"", [1 / 2, 1 / 2, 1 / 2], 3⟩) := by
  constructor
  · intro r h2
    simp [completionWithRetry, retryGo, h0, h1, h2]
  · intro e2 h2
    simp [completionWithRetry, retryGo, h0, h1, h2]

/-- Claim C1 witness: a concrete client failing on attempts 1 and 2 and
succeeding on attempt 3 yields that response with two waits of one half
and two logged failures. -/
theorem claim_c1_retry_policy_witness :
    completionWithRetry (fun i => if i < 2 then .error "boom" else .ok "OK") 3
      = ⟨"OK", [1 / 2, 1 / 2], 2⟩ :=
  (claim_c1_retry_policy _ "boom" "boom" rfl rfl).1 "OK" rfl

/-- The lexicographic sort applied by `sorted(img_paths)` in `__main__`
(src/main.py line 192), modelled as a stable insertion sort with respect
to the codepoint-lexicographic order on the character lists of the
strings (the comparison Python applies to strings). -/
def pySorted (l : List String) : List String :=
  List.insertionSort (fun a b => a.data ≤ b.data) l

instance : IsTotal String (fun a b : String => a.data ≤ b.data) :=
  ⟨fun a b => le_total a.data b.data⟩

instance : IsTrans String (fun a b : String => a.data ≤ b.data) :=
  ⟨fun _ _ _ => le_trans⟩

/-- Embeds the page loop of `__main__` (src/main.py lines 191-196):
starting from the empty document, each sorted page image path is
converted (the `convert` parameter stands for `convert_image_to_markdown`
precomposed with the backslash replacement) and the fragment is appended
together with two newline characters. -/
def convertLoop (convert : String → String) (imgPaths : List String) : String :=
  (pySorted imgPaths).foldl (fun acc p => acc ++ convert p ++ "\n\n") ""

/-- Concatenation of page fragments, each followed by exactly two newline
characters, in list order; the output shape claim C2 describes. -/
def concatFrags (frags : List String) : String :=
  frags.foldr (fun f acc => f ++ "\n\n" ++ acc) ""

theorem concatFrags_cons (f : String) (l : List String) :
    concatFrags (f :: l) = f ++ "\n\n" ++ concatFrags l := rfl

theorem foldl_concatFrags (convert : String → String) :
    ∀ (l : List String) (acc : String),
      l.foldl (fun a p => a ++ convert p ++ "\n\n") acc
        = acc ++ concatFrags (l.map convert) := by
  intro l
  induction l with
  | nil =>
    intro acc
    simp [concatFrags]
  | cons p rest ih =>
    intro acc
    simp only [List.foldl_cons, List.map_cons, concatFrags_cons]
    rw [ih]
    simp [String.append_assoc]

/-- Claim C2: the final Markdown document is the concatenation, in sorted
page order, of each fragment followed by exactly two newline characters;
in particular a two-page run where page 1 yields a heading and page 2
contributes the empty fragment produces the heading followed by four
newline characters. -/
theorem claim_c2_markdown_assembly :
    (∀ (convert : String → String) (imgPaths : List String),
      convertLoop convert imgPaths
        = concatFrags ((pySorted imgPaths).map convert)) ∧
    convertLoop (fun p => if p = "page_1.png" then "# A" else "")
      ["page_1.png", "page_2.png"] = "# A\n\n\n\n" := by
  constructor
  · intro convert imgPaths
    unfold convertLoop
    rw [foldl_concatFrags]
    simp
  · decide

/-- Claim C6: the rendered page image paths are processed in lexicographic
order: for every list of paths the processed order is sorted and is a
permutation of the input; the three example file names are processed with
page 10 before page 2. -/
theorem claim_c6_page_order :
    (∀ imgPaths : List String,
      (pySorted imgPaths).Sorted (fun a b => a ≤ b) ∧
      List.Perm (pySorted imgPaths) imgPaths) ∧
    pySorted ["page_2.png", "page_10.png", "page_1.png"]
      = ["page_1.png", "page_10.png", "page_2.png"] := by
  constructor
  · intro imgPaths
    refine ⟨?_, List.perm_insertionSort _ imgPaths⟩
    have hs := List.sorted_insertionSort (fun a b : String => a.data ≤ b.data) imgPaths
    exact List.Pairwise.imp (fun hab => String.le_iff_toList_le.mpr hab) hs
  · decide

/-- Observable events of the `__main__` control flow after input
classification: rendering the pages to images, converting one page,
producing the final document, and exiting with a code. -/
inductive MainEv where
  | renderedPages (n : Nat)
  | convertedPage (path : String)
  | producedOutput (doc : String)
  | exitedWith (code : Nat)
deriving DecidableEq

/-- Embeds the per-page part of the `__main__` loop: each iteration calls
`completion`, which first reads `OPENAI_API_KEY` and terminates the
process with exit code 1 when it is absent (src/main.py lines 35-38);
otherwise the page is converted and its fragment appended. Returns the
emitted events together with either the fatal exit code or the
accumulated document. -/
def pagesLoop (apiKey : Option String) (convert : String → String) :
    String → List String → List MainEv × Except Nat String
  | acc, [] => ([], .ok acc)
  | acc, p :: rest =>
    match apiKey with
    | none => ([MainEv.exitedWith 1], .error 1)
    | some _ =>
      let next := pagesLoop apiKey convert (acc ++ convert p ++ "\n\n") rest
      (MainEv.convertedPage p :: next.1, next.2)

/-- Embeds the `__main__` flow from image rendering onward (src/main.py
lines 187-205): the pages are rendered to images first, then the sorted
page loop runs; on success the document is produced and the process
exits 0. -/
def runAfterImages (apiKey : Option String) (convert : String → String)
    (imgPaths : List String) : List MainEv × Except Nat String :=
  let stage := pagesLoop apiKey convert "" (pySorted imgPaths)
  (MainEv.renderedPages imgPaths.length ::
      stage.1 ++
      (match stage.2 with
       | .ok doc => [MainEv.producedOutput doc, MainEv.exitedWith 0]
       | .error _ => []),
    stage.2)

/-- Claim C4 counterexample: with the API key absent the claim asserts
that the process exits before any work begins, so the fatal exit would be
the first observable event; but on a one-page document the first event is
the page rendering, which precedes the exit, because the key is only read
inside `completion` when the first page is transcribed. -/
theorem claim_c4_counterexample :
    ¬ (∀ (convert : String → String) (imgPaths : List String),
        ((runAfterImages none convert imgPaths).1).head?
          = some (MainEv.exitedWith 1)) := by
  intro h
  have h1 := h (fun _ => "x") ["page_1.png"]
  have h2 : ((runAfterImages none (fun _ => "x") ["page_1.png"]).1).head?
      = some (MainEv.renderedPages 1) := rfl
  rw [h2] at h1
  simp at h1

/-- Claim C4 (amended): when the API key environment variable is absent
and at least one page was rendered, the run fails fatally with exit code
1 and no output is produced; the exit however happens at the first page
conversion, after the pages have already been rendered, because the key
is read inside `completion` rather than at startup. -/
theorem claim_c4_amended (convert : String → String) (imgPaths : List String)
    (h : imgPaths ≠ []) :
    runAfterImages none convert imgPaths
      = ([MainEv.renderedPages imgPaths.length, MainEv.exitedWith 1], .error 1) := by
  obtain ⟨q, rest, hq⟩ : ∃ q rest, pySorted imgPaths = q :: rest := by
    have hlen : (pySorted imgPaths).length = imgPaths.length :=
      (List.perm_insertionSort _ imgPaths).length_eq
    cases hs : pySorted imgPaths with
    | nil =>
      rw [hs] at hlen
      cases imgPaths with
      | nil => exact absurd rfl h
      | cons a l => simp at hlen
    | cons q rest => exact ⟨q, rest, rfl⟩
  unfold runAfterImages
  rw [hq]
  simp [pagesLoop]

/-- Claim C4 witness: a concrete one-page run with the key absent renders
the page, then exits with code 1 and produces no output. -/
theorem claim_c4_amended_witness :
    runAfterImages none (fun _ => "") ["page_1.png"]
      = ([MainEv.renderedPages 1, MainEv.exitedWith 1], .error 1) :=
  claim_c4_amended (fun _ => "") ["page_1.png"] (by decide)

/-- Byte signature of a PDF file: the bytes of percent-P-D-F-dash. -/
def sigPDF : List Nat := [0x25, 0x50, 0x44, 0x46, 0x2D]

/-- Byte signature of a JPEG file. -/
def sigJPG : List Nat := [0xFF, 0xD8, 0xFF, 0xDB]

/-- Byte signature of a PNG file. -/
def sigPNG : List Nat := [0x89, 0x50, 0x4E, 0x47]

/-- Byte signature of a BMP file. -/
def sigBMP : List Nat := [0x42, 0x4D]

/-- Embeds the input classification of `__main__` (src/main.py lines
151-173): when the filename has no extension, or the input came from
standard input, the leading bytes are matched against the fixed signature
table, and an unrecognized signature is fatal (`none`, the exit-1 branch
logging an unsupported file type); otherwise the filename extension is
used unchanged, whatever it is. -/
def classifyInput (inputExt : String) (fromStdin : Bool) (data : List Nat) :
    Option String :=
  if inputExt = "" ∨ fromStdin = true then
    if isPrefL sigPDF data then some ".pdf"
    else if isPrefL sigJPG data then some ".jpg"
    else if isPrefL sigPNG data then some ".png"
    else if isPrefL sigBMP data then some ".bmp"
    else none
  else some inputExt

/-- Claim C5 counterexample: the code only falls back to byte sniffing
when the filename has no extension at all (or input came from standard
input); an input with the unrecognized extension dot-x-y-z and leading
bytes matching no signature is not rejected by classification — it keeps
its extension instead of failing with the unsupported-format exit. -/
theorem claim_c5_counterexample :
    ¬ (∀ (ext : String) (fromStdin : Bool) (data : List Nat),
        ext ∉ ([".pdf", ".jpg", ".jpeg", ".png", ".bmp"] : List String) →
        isPrefL sigPDF data = false → isPrefL sigJPG data = false →
        isPrefL sigPNG data = false → isPrefL sigBMP data = false →
        classifyInput ext fromStdin data = none) := by
  intro h
  have h1 := h ".xyz" false [0, 0, 0, 0] (by decide) (by decide) (by decide)
    (by decide) (by decide)
  exact absurd h1 (by decide)

/-- Claim C5 (amended): when no filename extension is available (empty
extension, or input from standard input), classification inspects the
leading bytes: each of the four signatures yields its type tag, and when
no signature matches, classification fails with the fatal
unsupported-format exit. The failing case requires the extension to be
truly absent: a file with an unrecognized nonempty extension is not
rejected here (see the counterexample); such inputs are rejected later by
the worker factory. -/
theorem claim_c5_amended (ext : String) (fromStdin : Bool) (data : List Nat)
    (hext : ext = "" ∨ fromStdin = true) :
    (isPrefL sigPDF data = true → classifyInput ext fromStdin data = some ".pdf") ∧
    (isPrefL sigJPG data = true → classifyInput ext fromStdin data = some ".jpg") ∧
    (isPrefL sigPNG data = true → classifyInput ext fromStdin data = some ".png") ∧
    (isPrefL sigBMP data = true → classifyInput ext fromStdin data = some ".bmp") ∧
    (isPrefL sigPDF data = false → isPrefL sigJPG data = false →
     isPrefL sigPNG data = false → isPrefL sigBMP data = false →
     classifyInput ext fromStdin data = none) := by
  refine ⟨?_, ?_, ?_, ?_, ?_⟩
  · intro h
    unfold classifyInput
    rw [if_pos hext, if_pos h]
  · intro h
    obtain ⟨w, rfl⟩ := (isPrefL_iff sigJPG data).mp h
    have h1 : isPrefL sigPDF (sigJPG ++ w) = false := by
      simp [sigPDF, sigJPG, isPrefL]
    unfold classifyInput
    rw [if_pos hext, if_neg (by simp [h1]), if_pos (isPrefL_append_self sigJPG w)]
  · intro h
    obtain ⟨w, rfl⟩ := (isPrefL_iff sigPNG data).mp h
    have h1 : isPrefL sigPDF (sigPNG ++ w) = false := by
      simp [sigPDF, sigPNG, isPrefL]
    have h2 : isPrefL sigJPG (sigPNG ++ w) = false := by
      simp [sigJPG, sigPNG, isPrefL]
    unfold classifyInput
    rw [if_pos hext, if_neg (by simp [h1]), if_neg (by simp [h2]),
      if_pos (isPrefL_append_self sigPNG w)]
  · intro h
    obtain ⟨w, rfl⟩ := (isPrefL_iff sigBMP data).mp h
    have h1 : isPrefL sigPDF (sigBMP ++ w) = false := by
      simp [sigPDF, sigBMP, isPrefL]
    have h2 : isPrefL sigJPG (sigBMP ++ w) = false := by
      simp [sigJPG, sigBMP, isPrefL]
    have h3 : isPrefL sigPNG (sigBMP ++ w) = false := by
      simp [sigPNG, sigBMP, isPrefL]
    unfold classifyInput
    rw [if_pos hext, if_neg (by simp [h1]), if_neg (by simp [h2]),
      if_neg (by simp [h3]), if_pos (isPrefL_append_self sigBMP w)]
  · intro h1 h2 h3 h4
    unfold classifyInput
    rw [if_pos hext, if_neg (by simp [h1]), if_neg (by simp [h2]),
      if_neg (by simp [h3]), if_neg (by simp [h4])]

/-- Claim C5 witness: standard-input-style data starting with the PNG
signature classifies as PNG. -/
theorem claim_c5_amended_witness :
    (("" : String) = "" ∨ false = true) ∧
    classifyInput "" false [0x89, 0x50, 0x4E, 0x47, 0x00] = some ".png" :=
  ⟨Or.inl rfl,
    (claim_c5_amended "" false [0x89, 0x50, 0x4E, 0x47, 0x00]
      (Or.inl rfl)).2.2.1 (by decide)⟩

/-- One entry of the user message content list built by
`LLMClient.completion`: a text part or an image-URL part. -/
inductive ContentPart where
  | text (t : String)
  | imageUrl (url : String)
deriving DecidableEq

/-- Content of one chat message: a single string (system role) or a list
of parts (user role). -/
inductive MsgContent where
  | plain (s : String)
  | multi (ps : List ContentPart)
deriving DecidableEq

/-- One chat message with its role string. -/
structure ChatMsg where
  role : String
  content : MsgContent
deriving DecidableEq

/-- Embeds the user-content construction of `LLMClient.completion`
(src/core/LLMClient.py lines 62-72): the text entry first, then one
image-URL entry per image path, each wrapped as a JPEG data URI around
the base64 payload produced by `encode_image` (modelled by the opaque
parameter `enc`). An absent or empty path list contributes no image
entries. -/
def buildUserContent (userMessage : String) (imagePaths : Option (List String))
    (enc : String → String) : List ContentPart :=
  ContentPart.text userMessage ::
    (match imagePaths with
     | none => []
     | some ps => ps.map fun p =>
         ContentPart.imageUrl ("data:image/jpeg;base64," ++ enc p))

/-- Embeds the message-list construction of `LLMClient.completion`
(src/core/LLMClient.py lines 74-77): one system message whose content is
the system prompt (the empty string when the prompt is absent), then one
user message carrying the multimodal content. -/
def buildMessages (userMessage : String) (systemPrompt : Option String)
    (imagePaths : Option (List String)) (enc : String → String) : List ChatMsg :=
  [⟨"system", MsgContent.plain (systemPrompt.getD "")⟩,
   ⟨"user", MsgContent.multi (buildUserContent userMessage imagePaths enc)⟩]

/-- Claim C7: for every completion request the program constructs (its
call sites pass at most one image path), the message list contains
exactly one system message, whose content is the instruction text
(possibly empty), and exactly one user message; the user content starts
with the text instruction followed by zero or one image entries, each
wrapped as a JPEG base64 data URI regardless of the true image
encoding. -/
theorem claim_c7_message_shape (userMessage : String) (systemPrompt : Option String)
    (imagePaths : Option (List String)) (enc : String → String)
    (h : (imagePaths.getD []).length ≤ 1) :
    ((buildMessages userMessage systemPrompt imagePaths enc).filter
        (fun m => m.role == "system")).length = 1 ∧
    ((buildMessages userMessage systemPrompt imagePaths enc).filter
        (fun m => m.role == "user")).length = 1 ∧
    ∃ imgs : List ContentPart,
      buildMessages userMessage systemPrompt imagePaths enc
        = [⟨"system", MsgContent.plain (systemPrompt.getD "")⟩,
           ⟨"user", MsgContent.multi (ContentPart.text userMessage :: imgs)⟩] ∧
      imgs.length ≤ 1 ∧
      ∀ part ∈ imgs, ∃ p ∈ imagePaths.getD [],
        part = ContentPart.imageUrl ("data:image/jpeg;base64," ++ enc p) := by
  refine ⟨?_, ?_, ?_⟩
  · simp [buildMessages, List.filter]
  · simp [buildMessages, List.filter]
  · refine ⟨(imagePaths.getD []).map
        (fun p => ContentPart.imageUrl ("data:image/jpeg;base64," ++ enc p)),
      ?_, ?_, ?_⟩
    · cases imagePaths <;> simp [buildMessages, buildUserContent]
    · simpa using h
    · intro part hp
      obtain ⟨p, hmem, rfl⟩ := List.mem_map.mp hp
      exact ⟨p, hmem, rfl⟩

/-- Claim C7 witness: a concrete single-image request satisfies the
at-most-one-image premise and yields exactly one system message. -/
theorem claim_c7_message_shape_witness :
    ((some ["p.png"] : Option (List String)).getD []).length ≤ 1 ∧
    ((buildMessages "m" none (some ["p.png"]) (fun _ => "QUJD")).filter
        (fun m => m.role == "system")).length = 1 :=
  ⟨by decide,
    (claim_c7_message_shape "m" none (some ["p.png"]) (fun _ => "QUJD")
      (by decide)).1⟩

/-- Claim C10: the completion client accepts any number of image paths:
for a list of n paths the user content has exactly n plus one entries,
the text instruction first, then one image entry per path in the order of
the list. -/
theorem claim_c10_many_images (userMessage : String) (ps : List String)
    (enc : String → String) :
    (buildUserContent userMessage (some ps) enc).length = ps.length + 1 ∧
    (buildUserContent userMessage (some ps) enc).head?
      = some (ContentPart.text userMessage) ∧
    ∀ i (h : i < ps.length),
      (buildUserContent userMessage (some ps) enc)[i + 1]?
        = some (ContentPart.imageUrl ("data:image/jpeg;base64," ++ enc ps[i])) := by
  refine ⟨?_, ?_, ?_⟩
  · simp [buildUserContent]
  · simp [buildUserContent]
  · intro i h
    simp [buildUserContent, List.getElem?_map, List.getElem?_eq_getElem h]

/-- Claim C10 witness: a two-image request carries the first image as the
second content entry. -/
theorem claim_c10_many_images_witness :
    (0 : Nat) < (["a.png", "b.png"] : List String).length ∧
    (buildUserContent "txt" (some ["a.png", "b.png"]) (fun s => s))[1]?
      = some (ContentPart.imageUrl ("data:image/jpeg;base64," ++ "a.png")) :=
  ⟨by decide,
    (claim_c10_many_images "txt" ["a.png", "b.png"] (fun s => s)).2.2 0 (by decide)⟩

end MarkPdfDown
